import Mathlib

/-!
Verification of the harness-generation pipeline of `parse.py`.

The script flattens a C parameter type into a post-order sequence of local
variables (`local_vars`), synthesizes declaration/assignment statement pairs
(`initializers` with the inner `read_and_assign`), assembles the final text
fragment (`codegen`), and selects the target function as the one maximizing
a line-number key (`max` with a key function).  Each definition below is a
direct shallow embedding of the corresponding Python function; Python
exceptions are modelled by the `Except PyErr` monad and Python's negative
indexing / slicing by explicit helper functions.
-/

/-- Errors the Python script can raise:
`unhandledTypeKind k` models `raise Exception('local variables unhandled kind', type.kind)`
inside `local_vars` (where `type` is the function parameter, so the offending
kind `k` is part of the message); `attributeError` models the `AttributeError`
raised when `read_and_assign`'s final branch evaluates `type.kind` on the
Python builtin `type` (carrying no kind information); `indexError` models
out-of-range list indexing; `typeError` models `str.join` applied to a tuple
containing `None`; `valueError` models `zip(*[])` unpacking failure and
`max` on an empty sequence. -/
inductive PyErr where
  | unhandledTypeKind (kind : String)
  | attributeError
  | indexError
  | typeError
  | valueError
deriving DecidableEq

mutual
/-- The clang type structure the script consumes, restricted to the kinds it
inspects: `TypeKind.INT`, `TypeKind.UINT`, `TypeKind.CHAR_S`,
`TypeKind.POINTER` and `TypeKind.ELABORATED` (a composite whose declaration's
children are its fields); every other kind is collapsed into `OTHER` carrying
the clang kind name.  Each type carries its display `spelling` used verbatim
in declarations.  A forward-declared struct whose declaration resolves to no
children is represented by `ELABORATED` with an empty field list, exactly as
`td.get_children()` yields nothing for it. -/
inductive CType : Type where
  | INT (sp : String) : CType
  | UINT (sp : String) : CType
  | CHAR_S (sp : String) : CType
  | POINTER (sp : String) (pointee : CType) : CType
  | ELABORATED (sp : String) (fields : FieldList) : CType
  | OTHER (sp : String) (kindName : String) : CType

/-- Ordered field list of a composite: field name together with its type. -/
inductive FieldList : Type where
  | nil : FieldList
  | cons (name : String) (ty : CType) (rest : FieldList) : FieldList
end

/-- Number of direct fields, i.e. `len(list(td.get_children()))`. -/
def FieldList.length : FieldList → Nat
  | .nil => 0
  | .cons _ _ r => r.length + 1

/-- Display spelling of a type (`type.spelling`). -/
def CType.spelling : CType → String
  | .INT sp => sp
  | .UINT sp => sp
  | .CHAR_S sp => sp
  | .POINTER sp _ => sp
  | .ELABORATED sp _ => sp
  | .OTHER sp _ => sp

/-- The `LocalVariable` dataclass of the script: a type, a variable name and
the `children` count (defaulting to `0`, set to the number of direct fields
for composites and to `1` for pointers). -/
structure LocalVariable where
  type : CType
  name : String
  children : Nat := 0

mutual
/-- Embedding of `local_vars(type, varname)`: recursively yields input
variables for the type's fields down to primitives, post-order, finishing
with the type's own entry.  Collecting the generator with `list(...)` either
materializes the whole sequence or propagates the exception, which is the
`Except` result here. -/
def local_vars : CType → String → Except PyErr (List LocalVariable)
  | .ELABORATED sp fs, nm =>
    match flattenFields fs with
    | .error e => .error e
    | .ok sub => .ok (sub ++ [⟨.ELABORATED sp fs, nm, fs.length⟩])
  | .POINTER sp p, nm =>
    match local_vars p (nm ++ "_v") with
    | .error e => .error e
    | .ok sub => .ok (sub ++ [⟨.POINTER sp p, nm, 1⟩])
  | .INT sp, nm => .ok [⟨.INT sp, nm, 0⟩]
  | .UINT sp, nm => .ok [⟨.UINT sp, nm, 0⟩]
  | .CHAR_S sp, nm => .ok [⟨.CHAR_S sp, nm, 0⟩]
  | .OTHER _ k, _ => .error (.unhandledTypeKind k)

/-- The `for fd in children: yield from local_vars(fd.type, fd.displayname)`
loop of `local_vars`, i.e. the concatenation of the flattenings of the direct
fields in declaration order. -/
def flattenFields : FieldList → Except PyErr (List LocalVariable)
  | .nil => .ok []
  | .cons fn ft rest =>
    match local_vars ft fn with
    | .error e => .error e
    | .ok s =>
      match flattenFields rest with
      | .error e => .error e
      | .ok s2 => .ok (s ++ s2)
end

/-- Python slice `l[:-c]` for a nonnegative `c`: empty when `c = 0`
(`l[:-0]` is `l[:0]`), otherwise everything but the last `c` elements. -/
def pySliceNegEnd (l : List LocalVariable) (c : Nat) : List LocalVariable :=
  if c = 0 then [] else l.take (l.length - c)

/-- Python indexing `l[-c]` for a nonnegative `c`: `l[0]` when `c = 0`,
otherwise the element at offset `l.length - c`, raising `IndexError` when the
index is out of range. -/
def pyNegGet (l : List LocalVariable) (c : Nat) : Except PyErr LocalVariable :=
  if hc : c = 0 then
    match l with
    | [] => .error .indexError
    | x :: _ => .ok x
  else if h : c ≤ l.length then .ok (l.get ⟨l.length - c, by omega⟩)
  else .error .indexError

/-- Embedding of the inner `declare(v)`: `f'{v.type.spelling} {v.name};'`. -/
def declare (v : LocalVariable) : String :=
  v.type.spelling ++ " " ++ v.name ++ ";"

/-- Embedding of the inner `read_and_assign(i, v)` of `initializers(vars)`.
The composite branch iterates `for c in reversed(vars_so_far[:-v.children])`
but returns inside the loop body, so it produces the statement built from the
last element of the slice — or falls through and returns `None` when the
slice is empty (hence the `Option String` result).  The pointer branch
indexes `vars_so_far[-v.children]`.  The final branch of the Python code
evaluates `type.kind` where `type` is the Python builtin, raising an
`AttributeError` that names no type kind. -/
def read_and_assign (vars : List LocalVariable) (i : Nat) (v : LocalVariable) :
    Except PyErr (Option String) :=
  let vars_so_far := vars.take i
  match v.type with
  | .ELABORATED _ _ =>
    .ok ((pySliceNegEnd vars_so_far v.children).getLast?.map
      (fun c => v.name ++ "." ++ c.name ++ " = " ++ c.name ++ ";"))
  | .POINTER _ _ =>
    match pyNegGet vars_so_far v.children with
    | .error e => .error e
    | .ok c => .ok (some (v.name ++ " = &" ++ c.name ++ ";"))
  | .INT _ => .ok (some ("scanf(\"%d\", &" ++ v.name ++ ");"))
  | .UINT _ => .ok (some ("scanf(\"%u\", &" ++ v.name ++ ");"))
  | .CHAR_S _ => .ok (some ("scanf(\" %c\", &" ++ v.name ++ ");"))
  | .OTHER _ _ => .error .attributeError

/-- Worker for `initializers`: processes the remaining entries, `i` being the
`enumerate` index of the first one. -/
def initsAux (vars : List LocalVariable) : Nat → List LocalVariable →
    Except PyErr (List (String × Option String))
  | _, [] => .ok []
  | i, v :: rest =>
    match read_and_assign vars i v with
    | .error e => .error e
    | .ok a =>
      match initsAux vars (i + 1) rest with
      | .error e => .error e
      | .ok r => .ok ((declare v, a) :: r)

/-- Embedding of `initializers(vars)`: for each entry, the pair
`(declare(v), read_and_assign(i, v))`, collected with `list(...)`. -/
def initializers (vars : List LocalVariable) :
    Except PyErr (List (String × Option String)) :=
  initsAux vars 0 vars

/-- Checks that every element is a `str` (not `None`), as `str.join` demands;
returns the unwrapped list. -/
def allSome : List (Option String) → Option (List String)
  | [] => some []
  | none :: _ => none
  | some x :: rest =>
    match allSome rest with
    | none => none
    | some r => some (x :: r)

/-- Embedding of `codegen(fn_name, param_names, inits)`, producing the text
of the fragment printed by the second `print`.  `decls, defs = zip(*inits)`
raises `ValueError` on an empty `inits`; `joiner.join(defs)` raises
`TypeError` when some assignment is `None`. -/
def codegen (fn_name : String) (param_names : List String)
    (inits : List (String × Option String)) : Except PyErr String :=
  match inits with
  | [] => .error .valueError
  | _ :: _ =>
    match allSome (inits.map Prod.snd) with
    | none => .error .typeError
    | some defs =>
      .ok ("\nint main() \x7b\n    // declare input variables\n    " ++
        String.intercalate "\n    " (inits.map Prod.fst) ++
        "\n    // prepare input variables\n    " ++
        String.intercalate "\n    " defs ++
        "\n    // call into segment\n    " ++
        fn_name ++ "(" ++ String.intercalate ", " param_names ++ ");\n\x7d\n")

/-- The per-parameter loop of `main`: `inits += list(initializers(list(local_vars(...))))`
over the parameters in declaration order. -/
def collectInits : List (String × CType) →
    Except PyErr (List (String × Option String))
  | [] => .ok []
  | (pn, pt) :: rest =>
    match local_vars pt pn with
    | .error e => .error e
    | .ok l =>
      match initializers l with
      | .error e => .error e
      | .ok ps =>
        match collectInits rest with
        | .error e => .error e
        | .ok r => .ok (ps ++ r)

/-- The generation part of `main` after target selection: given the target's
name and its parameters (display name and type, in declaration order),
accumulate the initializer pairs parameter by parameter and emit the
fragment. -/
def gen_harness (fn_name : String) (params : List (String × CType)) :
    Except PyErr String :=
  match collectInits params with
  | .error e => .error e
  | .ok inits => codegen fn_name (params.map Prod.fst) inits

/-- A function declaration as seen by the target selector: name, the file of
its source location and the line number. -/
structure FuncDecl where
  name : String
  file : String
  line : Nat
deriving DecidableEq

/-- The selection key `lambda n: n.location.file.name == filename and n.location.line`:
Python's `and` yields `False` (which compares as `0`) when the file does not
match, and the line number otherwise. -/
def selKey (primary : String) (n : FuncDecl) : Nat :=
  if n.file = primary then n.line else 0

/-- Python `max(iterable, key=...)`: raises `ValueError` on an empty
iterable, otherwise folds left keeping the current element unless the new
one's key is strictly greater — so the first element attaining the maximal
key wins. -/
def pyMaxBy (key : FuncDecl → Nat) : List FuncDecl → Except PyErr FuncDecl
  | [] => .error .valueError
  | x :: xs => .ok (xs.foldl (fun cur n => if key cur < key n then n else cur) x)

/-- Embedding of `target = max(funcdecls, key=...)` in `main`. -/
def selectTarget (primary : String) (decls : List FuncDecl) :
    Except PyErr FuncDecl :=
  pyMaxBy (selKey primary) decls

/-- The left fold underlying `pyMaxBy` on a nonempty list: scan keeping the
current element unless the new one's key is strictly greater. -/
def pyFold (key : FuncDecl → Nat) (cur : FuncDecl) (xs : List FuncDecl) :
    FuncDecl :=
  xs.foldl (fun c m => if key c < key m then m else c) cur

mutual
/-- Boolean structural equality on the embedded type trees. -/
def ctypeBeq : CType → CType → Bool
  | .INT a, .INT b => a == b
  | .UINT a, .UINT b => a == b
  | .CHAR_S a, .CHAR_S b => a == b
  | .POINTER a p, .POINTER b q => a == b && ctypeBeq p q
  | .ELABORATED a fs, .ELABORATED b gs => a == b && fieldsBeq fs gs
  | .OTHER a k, .OTHER b k2 => a == b && k == k2
  | _, _ => false

/-- Boolean structural equality on field lists. -/
def fieldsBeq : FieldList → FieldList → Bool
  | .nil, .nil => true
  | .cons n t r, .cons n2 t2 r2 => n == n2 && ctypeBeq t t2 && fieldsBeq r r2
  | _, _ => false
end

instance : BEq CType := ⟨ctypeBeq⟩

instance : BEq LocalVariable :=
  ⟨fun a b => a.type == b.type && a.name == b.name && a.children == b.children⟩

mutual
/-- Whether a type tree contains a node of a kind outside
{INT, UINT, CHAR_S, POINTER, ELABORATED}. -/
def hasUnsupported : CType → Bool
  | .POINTER _ p => hasUnsupported p
  | .ELABORATED _ fs => fieldsHaveUnsupported fs
  | .OTHER _ _ => true
  | _ => false

/-- Whether some field's type contains an unsupported node. -/
def fieldsHaveUnsupported : FieldList → Bool
  | .nil => false
  | .cons _ t rest => hasUnsupported t || fieldsHaveUnsupported rest
end

mutual
/-- Whether the kind name `k` labels some `OTHER` node of the tree. -/
def kindOccurs : CType → String → Bool
  | .POINTER _ p, k => kindOccurs p k
  | .ELABORATED _ fs, k => kindOccursFields fs k
  | .OTHER _ k0, k => k0 == k
  | _, _ => false

/-- Whether the kind name `k` labels some `OTHER` node under the fields. -/
def kindOccursFields : FieldList → String → Bool
  | .nil, _ => false
  | .cons _ t rest, k => kindOccurs t k || kindOccursFields rest k
end

/-- Entries at indices in `[i - w, i - 1]` of `l` (the `w` entries
immediately preceding index `i`, truncated at the ends of the list). -/
def window (l : List LocalVariable) (i w : Nat) : List LocalVariable :=
  (l.take i).drop (i - w)

/-- Relates a field list to the flattened sequences of its fields, in
declaration order: `FieldsFlattenTo fs deps` holds when `deps` lists, field
by field, the result of `local_vars` on that field's type and name. -/
inductive FieldsFlattenTo : FieldList → List (List LocalVariable) → Prop where
  | nil : FieldsFlattenTo .nil []
  | cons {fn : String} {ft : CType} {rest : FieldList}
      {s : List LocalVariable} {ds : List (List LocalVariable)} :
      local_vars ft fn = .ok s → FieldsFlattenTo rest ds →
      FieldsFlattenTo (.cons fn ft rest) (s :: ds)

/-- The contiguous-layout invariant of a flattened sequence at index `i`:
a pointer entry is immediately preceded by the full flattening of its pointee
(under the `_v` name), a composite entry is immediately preceded by the
concatenated flattenings of its direct fields in declaration order with no
gaps or reordering, `children` records `1` resp. the number of direct fields,
primitives carry `children = 0`, and no entry has an unsupported kind. -/
def EntryOK (l : List LocalVariable) (i : Nat) : Prop :=
  ∀ v, l[i]? = some v →
    match v.type with
    | .POINTER _ p =>
        v.children = 1 ∧ ∃ sub, local_vars p (v.name ++ "_v") = .ok sub ∧
          sub ≠ [] ∧ sub.length ≤ i ∧ window l i sub.length = sub
    | .ELABORATED _ fs =>
        v.children = fs.length ∧ ∃ deps, FieldsFlattenTo fs deps ∧
          deps.flatten.length ≤ i ∧ window l i deps.flatten.length = deps.flatten
    | .OTHER _ _ => False
    | _ => v.children = 0

/-- The last entry `local_vars` emits for a type, i.e. the descriptor of the
type itself (used to state the positional-window reading of the spec). -/
def flattenRoot (t : CType) (nm : String) : Option LocalVariable :=
  match local_vars t nm with
  | .ok l => l.getLast?
  | .error _ => none

/-- Root entries of the direct fields, in declaration order. -/
def fieldRoots : FieldList → Option (List LocalVariable)
  | .nil => some []
  | .cons fn ft rest =>
    match flattenRoot ft fn, fieldRoots rest with
    | some r, some rs => some (r :: rs)
    | _, _ => none

/-- The positional-window reading of the spec at one entry: for a composite
with `childCount = c` at index `i`, the entries at `[i - c, i - 1]` are the
root descriptors of its direct fields in declaration order; for a pointer,
the entry at `i - 1` is the root descriptor of its pointee. -/
def claimWindowAt (l : List LocalVariable) (i : Nat) (v : LocalVariable) : Bool :=
  match v.type with
  | .ELABORATED _ fs =>
      Nat.ble v.children i && (some (window l i v.children) == fieldRoots fs)
  | .POINTER _ p =>
      Nat.ble 1 i &&
        (some (window l i 1) == (flattenRoot p (v.name ++ "_v")).map (fun r => [r]))
  | _ => true

/-- The positional-window reading of the spec over a whole sequence. -/
def claimWindowAll (l : List LocalVariable) : Bool :=
  (List.range l.length).all fun i =>
    match l[i]? with
    | some v => claimWindowAt l i v
    | none => true

/-- Relates a parameter list to the per-parameter initializer chunks computed
for it: each parameter's type is flattened under its display name and
synthesized into its own chunk, chunks in declaration order. -/
inductive ParamInits : List (String × CType) →
    List (List (String × Option String)) → Prop where
  | nil : ParamInits [] []
  | cons {pn : String} {pt : CType} {rest : List (String × CType)}
      {l : List LocalVariable} {ps : List (String × Option String)}
      {r : List (List (String × Option String))} :
      local_vars pt pn = .ok l → initializers l = .ok ps →
      ParamInits rest r → ParamInits ((pn, pt) :: rest) (ps :: r)

/-- Scenario 1 parameter type, `struct \x7b int a; int b; \x7d p`. -/
def exStruct : CType :=
  .ELABORATED "struct anon" (.cons "a" (.INT "int") (.cons "b" (.INT "int") .nil))

/-- Flattening of `exStruct` under the parameter name `p`. -/
def exStructSeq : List LocalVariable :=
  [⟨.INT "int", "a", 0⟩, ⟨.INT "int", "b", 0⟩, ⟨exStruct, "p", 2⟩]

/-- A struct whose first field is primitive and whose second field is a
pointer, `struct s \x7b int a; int *b; \x7d p`. -/
def exMixed : CType :=
  .ELABORATED "struct s"
    (.cons "a" (.INT "int") (.cons "b" (.POINTER "int *" (.INT "int")) .nil))

/-- Flattening of `exMixed` under the parameter name `p`. -/
def exMixedSeq : List LocalVariable :=
  [⟨.INT "int", "a", 0⟩, ⟨.INT "int", "b_v", 0⟩,
   ⟨.POINTER "int *" (.INT "int"), "b", 1⟩, ⟨exMixed, "p", 2⟩]

/-- Scenario 2 parameter type, `int *x`. -/
def exPtr : CType := .POINTER "int *" (.INT "int")

/-- The pointer entry of the flattening of `exPtr` under the name `x`. -/
def exPtrVar : LocalVariable := ⟨exPtr, "x", 1⟩

/-- Flattening of `exPtr` under the parameter name `x`. -/
def exPtrSeq : List LocalVariable := [⟨.INT "int", "x_v", 0⟩, exPtrVar]

/-- Scenario 3 parameter type: a floating-point parameter, whose clang kind
is outside the supported set. -/
def exFloat : CType := .OTHER "float" "TypeKind.FLOAT"

/-- A sequence entry of the unsupported floating-point kind. -/
def exFloatVar : LocalVariable := ⟨exFloat, "f", 0⟩

/-- One primitive entry of each supported subkind. -/
def exPrims : List LocalVariable :=
  [⟨.INT "int", "a", 0⟩, ⟨.UINT "unsigned int", "u", 0⟩, ⟨.CHAR_S "char", "c", 0⟩]

/-- Flattening a type always emits at least the type's own entry. -/
theorem local_vars_ne_nil (t : CType) (nm : String) (l : List LocalVariable)
    (h : local_vars t nm = .ok l) : l ≠ [] := by
  cases t with
  | INT sp => simp only [local_vars, Except.ok.injEq] at h; subst h; simp
  | UINT sp => simp only [local_vars, Except.ok.injEq] at h; subst h; simp
  | CHAR_S sp => simp only [local_vars, Except.ok.injEq] at h; subst h; simp
  | POINTER sp p =>
    simp only [local_vars] at h
    split at h
    · exact absurd h (by simp)
    · simp only [Except.ok.injEq] at h; subst h; simp
  | ELABORATED sp fs =>
    simp only [local_vars] at h
    split at h
    · exact absurd h (by simp)
    · simp only [Except.ok.injEq] at h; subst h; simp
  | OTHER sp k => simp [local_vars] at h

/-- Backward-looking windows are unaffected by material before the sublist
and after the inspected index. -/
theorem window_shift (pre l suf : List LocalVariable) (i w : Nat)
    (hw : w ≤ i) (hi : i ≤ l.length) :
    window (pre ++ (l ++ suf)) (pre.length + i) w = window l i w := by
  have e1 : (pre ++ (l ++ suf)).take (pre.length + i) = pre ++ l.take i := by
    rw [List.take_append_eq_append_take, List.take_append_eq_append_take]
    have h1 : pre.take (pre.length + i) = pre := List.take_of_length_le (by omega)
    have h2 : pre.length + i - pre.length = i := by omega
    have h3 : i - l.length = 0 := by omega
    rw [h1, h2, h3]
    simp
  unfold window
  rw [e1, List.drop_append_eq_append_drop]
  have h4 : pre.drop (pre.length + i - w) = [] := List.drop_eq_nil_of_le (by omega)
  have h5 : pre.length + i - w - pre.length = i - w := by omega
  rw [h4, h5]
  simp

/-- Indices past the end of the list trivially satisfy the invariant. -/
theorem EntryOK_of_ge (l : List LocalVariable) (i : Nat) (hi : l.length ≤ i) :
    EntryOK l i := by
  intro v hv
  rw [List.getElem?_eq_none hi] at hv
  exact absurd hv (by simp)

/-- The invariant at an interior index survives arbitrary context on both
sides, with the index shifted by the length of the left context. -/
theorem EntryOK_shift (pre l suf : List LocalVariable) (i : Nat)
    (hi : i < l.length) (h : EntryOK l i) :
    EntryOK (pre ++ (l ++ suf)) (pre.length + i) := by
  intro v hv
  have hget : (pre ++ (l ++ suf))[pre.length + i]? = l[i]? := by
    rw [List.getElem?_append_right (by omega)]
    have h2 : pre.length + i - pre.length = i := by omega
    rw [h2, List.getElem?_append]
    simp [hi]
  rw [hget] at hv
  have h2 := h v hv
  cases htv : v.type with
  | POINTER sp p =>
    rw [htv] at h2
    obtain ⟨hch, sub, hsub, hne, hlen, hwin⟩ := h2
    exact ⟨hch, sub, hsub, hne, by omega,
      by rw [window_shift pre l suf i sub.length hlen (le_of_lt hi)]; exact hwin⟩
  | ELABORATED sp fs =>
    rw [htv] at h2
    obtain ⟨hch, deps, hdeps, hlen, hwin⟩ := h2
    exact ⟨hch, deps, hdeps, by omega,
      by rw [window_shift pre l suf i deps.flatten.length hlen (le_of_lt hi)]; exact hwin⟩
  | OTHER sp k => rw [htv] at h2; exact False.elim h2
  | INT sp => rw [htv] at h2; exact h2
  | UINT sp => rw [htv] at h2; exact h2
  | CHAR_S sp => rw [htv] at h2; exact h2

/-- The invariant survives appending material on the right. -/
theorem EntryOK_append_right (l suf : List LocalVariable) (i : Nat)
    (hi : i < l.length) (h : EntryOK l i) : EntryOK (l ++ suf) i := by
  have h2 := EntryOK_shift [] l suf i hi h
  simpa using h2

/-- The invariant survives prepending material, with the index shifted. -/
theorem EntryOK_append_left (pre l : List LocalVariable) (i : Nat)
    (hi : i < l.length) (h : EntryOK l i) : EntryOK (pre ++ l) (pre.length + i) := by
  have h2 := EntryOK_shift pre l [] i hi h
  simpa using h2

/-- Window of full width ending at the appended entry is exactly `sub`. -/
theorem window_at_end (sub : List LocalVariable) (e : LocalVariable) :
    window (sub ++ [e]) sub.length sub.length = sub := by
  unfold window
  rw [Nat.sub_self, List.drop_zero, List.take_left]

mutual

/-- Every entry of a successful flattening satisfies the layout invariant. -/
theorem local_vars_entryOK : ∀ (t : CType) (nm : String) (l : List LocalVariable),
    local_vars t nm = .ok l → ∀ i, EntryOK l i
  | .INT sp, nm, l, h, i => by
    simp only [local_vars, Except.ok.injEq] at h
    subst h
    intro v hv
    cases i with
    | zero =>
      simp only [List.getElem?_cons_zero, Option.some.injEq] at hv
      subst hv
      exact rfl
    | succ n => simp at hv
  | .UINT sp, nm, l, h, i => by
    simp only [local_vars, Except.ok.injEq] at h
    subst h
    intro v hv
    cases i with
    | zero =>
      simp only [List.getElem?_cons_zero, Option.some.injEq] at hv
      subst hv
      exact rfl
    | succ n => simp at hv
  | .CHAR_S sp, nm, l, h, i => by
    simp only [local_vars, Except.ok.injEq] at h
    subst h
    intro v hv
    cases i with
    | zero =>
      simp only [List.getElem?_cons_zero, Option.some.injEq] at hv
      subst hv
      exact rfl
    | succ n => simp at hv
  | .OTHER sp k, nm, l, h, i => by
    simp [local_vars] at h
  | .POINTER sp p, nm, l, h, i => by
    simp only [local_vars] at h
    cases hsub : local_vars p (nm ++ "_v") with
    | error e => rw [hsub] at h; exact absurd h (by simp)
    | ok sub =>
      rw [hsub] at h
      simp only [Except.ok.injEq] at h
      subst h
      rcases Nat.lt_trichotomy i sub.length with hlt | heq | hgt
      · exact EntryOK_append_right sub _ i hlt
          (local_vars_entryOK p (nm ++ "_v") sub hsub i)
      · subst heq
        intro v hv
        rw [List.getElem?_append_right (le_refl _)] at hv
        simp only [Nat.sub_self, List.getElem?_cons_zero, Option.some.injEq] at hv
        subst hv
        exact ⟨rfl, sub, hsub, local_vars_ne_nil p (nm ++ "_v") sub hsub, le_refl _,
          window_at_end sub _⟩
      · exact EntryOK_of_ge _ i (by simp; omega)
  | .ELABORATED sp fs, nm, l, h, i => by
    simp only [local_vars] at h
    cases hsub : flattenFields fs with
    | error e => rw [hsub] at h; exact absurd h (by simp)
    | ok sub =>
      rw [hsub] at h
      simp only [Except.ok.injEq] at h
      subst h
      have hff := flattenFields_entryOK fs sub hsub
      rcases Nat.lt_trichotomy i sub.length with hlt | heq | hgt
      · exact EntryOK_append_right sub _ i hlt (hff.1 i)
      · subst heq
        intro v hv
        rw [List.getElem?_append_right (le_refl _)] at hv
        simp only [Nat.sub_self, List.getElem?_cons_zero, Option.some.injEq] at hv
        subst hv
        obtain ⟨deps, hdeps, hjoin⟩ := hff.2
        subst hjoin
        exact ⟨rfl, deps, hdeps, le_refl _, window_at_end _ _⟩
      · exact EntryOK_of_ge _ i (by simp; omega)

/-- Field flattenings satisfy the invariant and tile the concatenation. -/
theorem flattenFields_entryOK : ∀ (fs : FieldList) (sub : List LocalVariable),
    flattenFields fs = .ok sub →
    (∀ i, EntryOK sub i) ∧ ∃ deps, FieldsFlattenTo fs deps ∧ sub = deps.flatten
  | .nil, sub, h => by
    simp only [flattenFields, Except.ok.injEq] at h
    subst h
    exact ⟨fun i => EntryOK_of_ge [] i (by simp), [], .nil, rfl⟩
  | .cons fn ft rest, sub, h => by
    simp only [flattenFields] at h
    cases h1 : local_vars ft fn with
    | error e => rw [h1] at h; exact absurd h (by simp)
    | ok s =>
      rw [h1] at h
      cases h2 : flattenFields rest with
      | error e => rw [h2] at h; exact absurd h (by simp)
      | ok s2 =>
        rw [h2] at h
        simp only [Except.ok.injEq] at h
        subst h
        have ihl := local_vars_entryOK ft fn s h1
        have ihr := flattenFields_entryOK rest s2 h2
        constructor
        · intro i
          by_cases hlt : i < s.length
          · exact EntryOK_append_right s s2 i hlt (ihl i)
          · by_cases hlt2 : i < s.length + s2.length
            · have hj : i = s.length + (i - s.length) := by omega
              rw [hj]
              exact EntryOK_append_left s s2 (i - s.length) (by omega)
                (ihr.1 (i - s.length))
            · exact EntryOK_of_ge _ i (by simp; omega)
        · obtain ⟨deps, hdeps, hjoin⟩ := ihr.2
          exact ⟨s :: deps, .cons h1 hdeps, by simp [hjoin]⟩

end

/-- C2 (amended): every sequence produced by `local_vars` satisfies the
contiguous-layout invariant: each pointer entry is immediately preceded by
the full flattening of its pointee, each composite entry is immediately
preceded by the concatenated flattenings of its direct fields in declaration
order with no gaps or reordering (so the window `[i - childCount, i - 1]` of
the original claim coincides with the dependency roots exactly when every
direct dependency flattens to a single entry, e.g. when all fields are
primitive), `childCount` records the number of direct dependencies, and no
entry has an unsupported kind. -/
theorem flatten_window_invariant (t : CType) (nm : String)
    (l : List LocalVariable) (h : local_vars t nm = .ok l) :
    ∀ i, EntryOK l i :=
  local_vars_entryOK t nm l h

/-- Witness for C2's amended invariant at the composite entry (index 3) of
the flattening of `struct s \x7b int a; int *b; \x7d p`. -/
theorem flatten_window_invariant_witness : EntryOK exMixedSeq 3 :=
  flatten_window_invariant exMixed "p" exMixedSeq rfl 3

/-- Counterexample to C2 as stated: for `struct s \x7b int a; int *b; \x7d p`
flattening yields `[a, b_v, b, p]` with `childCount 2` at the composite
entry `p` (index 3), but the entries at `[1, 2]` are `[b_v, b]`, not the
field roots `[a, b]` — the positional-window reading fails. -/
theorem flatten_window_claim_counterexample :
    local_vars exMixed "p" = .ok exMixedSeq ∧
    claimWindowAll exMixedSeq = false :=
  ⟨rfl, rfl⟩

/-- C1: contrary to the claim, the composite entry of
`struct \x7b int a; int b; \x7d p` receives no field assignments at all: the
`return` inside the composite loop of `read_and_assign` together with the
slice `vars_so_far[:-children]` (which here is empty) yields `None` instead
of `p.a = a; p.b = b;`, and the subsequent join in `codegen` fails on the
`None`. -/
theorem composite_assignments_dropped :
    local_vars exStruct "p" = .ok exStructSeq ∧
    initializers exStructSeq = .ok
      [("int a;", some "scanf(\"%d\", &a);"),
       ("int b;", some "scanf(\"%d\", &b);"),
       ("struct anon p;", none)] ∧
    gen_harness "f" [("p", exStruct)] = .error .typeError :=
  ⟨rfl, rfl, rfl⟩

/-- C3: `read_and_assign` emits at most one assignment statement per
composite entry regardless of `childCount` — the result is either `None` or a
single field assignment built from one earlier entry — and when the entry's
`childCount` equals its index (its dependencies are the whole preceding
sequence) the assignment is exactly `None`. -/
theorem composite_single_assignment (vars : List LocalVariable) (i : Nat)
    (v : LocalVariable) (sp : String) (fs : FieldList)
    (ht : v.type = .ELABORATED sp fs) :
    ∃ r, read_and_assign vars i v = .ok r ∧
      (r = none ∨ ∃ c, c ∈ vars.take i ∧
        r = some (v.name ++ "." ++ c.name ++ " = " ++ c.name ++ ";")) ∧
      (v.children = i → r = none) := by
  refine ⟨(pySliceNegEnd (vars.take i) v.children).getLast?.map
      (fun c => v.name ++ "." ++ c.name ++ " = " ++ c.name ++ ";"), ?_, ?_, ?_⟩
  · simp only [read_and_assign, ht]
  · cases hlast : (pySliceNegEnd (vars.take i) v.children).getLast? with
    | none => exact .inl rfl
    | some c =>
      refine .inr ⟨c, ?_, rfl⟩
      have hmem : c ∈ pySliceNegEnd (vars.take i) v.children := by
        rcases List.getLast?_eq_some_iff.mp hlast with ⟨ys, hys⟩
        rw [hys]; simp
      unfold pySliceNegEnd at hmem
      split at hmem
      · simp at hmem
      · exact List.mem_of_mem_take hmem
  · intro hch
    have hlen : (vars.take i).length ≤ i := by
      rw [List.length_take]; exact min_le_left _ _
    rw [hch]
    unfold pySliceNegEnd
    by_cases h0 : i = 0
    · rw [if_pos h0]; rfl
    · rw [if_neg h0]
      have hz : (vars.take i).length - i = 0 := by omega
      rw [hz]
      rfl

/-- Witness for C3 at the composite entry of `struct \x7b int a; int b; \x7d p`
(index 2, childCount 2): the assignment component is `None`. -/
theorem composite_single_assignment_witness :
    ∃ r, read_and_assign exStructSeq 2 ⟨exStruct, "p", 2⟩ = .ok r ∧
      (r = none ∨ ∃ c, c ∈ exStructSeq.take 2 ∧
        r = some ("p" ++ "." ++ c.name ++ " = " ++ c.name ++ ";")) ∧
      ((2 : Nat) = 2 → r = none) :=
  composite_single_assignment exStructSeq 2 ⟨exStruct, "p", 2⟩ "struct anon"
    (.cons "a" (.INT "int") (.cons "b" (.INT "int") .nil)) rfl

/-- Python `l[-1]` returns the last element when the list is nonempty. -/
theorem pyNegGet_one (l : List LocalVariable) (c : LocalVariable)
    (h : l.getLast? = some c) : pyNegGet l 1 = .ok c := by
  rw [List.getLast?_eq_getElem?] at h
  rcases List.getElem?_eq_some.mp h with ⟨hlt, hc⟩
  unfold pyNegGet
  rw [dif_neg (by omega)]
  rw [dif_pos (show 1 ≤ l.length by omega)]
  simp only [List.get_eq_getElem]
  rw [hc]

/-- The last element of `vars[:i]` is `vars[i - 1]` when `1 ≤ i ≤ |vars|`. -/
theorem take_getLast? (vars : List LocalVariable) (i : Nat) (c : LocalVariable)
    (h1 : 1 ≤ i) (h2 : i ≤ vars.length) (hc : vars[i - 1]? = some c) :
    (vars.take i).getLast? = some c := by
  rw [List.getLast?_eq_getElem?, List.length_take]
  have hmin : i ⊓ vars.length = i := inf_eq_left.mpr h2
  rw [hmin, List.getElem?_take]
  rw [if_pos (by omega)]
  exact hc

/-- C4: flattening a pointer parameter flattens the pointee under the name
`varname ++ "_v"` and appends the pointer's own entry with `childCount = 1`;
synthesis for a pointer entry at index `i` emits `"<name> = &<dep>;"` where
`<dep>` is the name of the entry at index `i - 1`. -/
theorem pointer_flatten_and_wire (pt : CType) (sp nm : String)
    (l vars : List LocalVariable) (i : Nat) (v c : LocalVariable)
    (hl : local_vars (.POINTER sp pt) nm = .ok l)
    (htv : v.type = .POINTER sp pt) (hch : v.children = 1)
    (hi1 : 1 ≤ i) (hi2 : i ≤ vars.length) (hc : vars[i - 1]? = some c) :
    (∃ sub, local_vars pt (nm ++ "_v") = .ok sub ∧
      l = sub ++ [⟨.POINTER sp pt, nm, 1⟩]) ∧
    read_and_assign vars i v = .ok (some (v.name ++ " = &" ++ c.name ++ ";")) := by
  constructor
  · simp only [local_vars] at hl
    cases hsub : local_vars pt (nm ++ "_v") with
    | error e => rw [hsub] at hl; exact absurd hl (by simp)
    | ok sub =>
      rw [hsub] at hl
      simp only [Except.ok.injEq] at hl
      exact ⟨sub, rfl, hl.symm⟩
  · simp only [read_and_assign, htv, hch]
    rw [pyNegGet_one (vars.take i) c (take_getLast? vars i c hi1 hi2 hc)]

/-- Witness for C4 at the flattening of `int *x`: the sequence is
`[x_v, x(childCount 1)]` and the pointer assignment is `x = &x_v;`. -/
theorem pointer_flatten_and_wire_witness :
    (∃ sub, local_vars (.INT "int") ("x" ++ "_v") = .ok sub ∧
      exPtrSeq = sub ++ [⟨.POINTER "int *" (.INT "int"), "x", 1⟩]) ∧
    read_and_assign exPtrSeq 1 exPtrVar =
      .ok (some ("x" ++ " = &" ++ "x_v" ++ ";")) :=
  pointer_flatten_and_wire (.INT "int") "int *" "x" exPtrSeq exPtrSeq 1
    exPtrVar ⟨.INT "int", "x_v", 0⟩ rfl rfl rfl (by omega) (by decide) rfl

/-- Alignment of `initializers`: the `j`-th pair consists of the declaration
of the `j`-th entry and its `read_and_assign` result at `enumerate` index
`i + j`. -/
theorem initsAux_spec (vars : List LocalVariable) :
    ∀ (rest : List LocalVariable) (i : Nat)
      (ps : List (String × Option String)),
      initsAux vars i rest = .ok ps →
      ∀ (j : Nat) (v : LocalVariable), rest[j]? = some v →
        ∃ r, read_and_assign vars (i + j) v = .ok r ∧
          ps[j]? = some (declare v, r)
  | [], i, ps, h, j, v, hv => by simp at hv
  | v0 :: rest, i, ps, h, j, v, hv => by
    simp only [initsAux] at h
    cases h1 : read_and_assign vars i v0 with
    | error e => rw [h1] at h; exact absurd h (by simp)
    | ok a =>
      rw [h1] at h
      cases h2 : initsAux vars (i + 1) rest with
      | error e => rw [h2] at h; exact absurd h (by simp)
      | ok r =>
        rw [h2] at h
        simp only [Except.ok.injEq] at h
        subst h
        cases j with
        | zero =>
          simp only [List.getElem?_cons_zero, Option.some.injEq] at hv
          subst hv
          exact ⟨a, by simpa using h1, by simp⟩
        | succ n =>
          simp only [List.getElem?_cons_succ] at hv
          obtain ⟨rr, hrr, hpr⟩ := initsAux_spec vars rest (i + 1) r h2 n v hv
          refine ⟨rr, ?_, by simpa using hpr⟩
          rw [show i + (n + 1) = i + 1 + n by omega]
          exact hrr

/-- C5: for every primitive entry of a synthesized sequence, the pair at the
same index holds the declaration and exactly one runtime-read statement whose
format is determined by the subkind: a signed read for `INT`, an unsigned
read for `UINT`, and a whitespace-skipping single-character read for
`CHAR_S`; no primitive is left without a read. -/
theorem primitive_reads (vars : List LocalVariable)
    (ps : List (String × Option String)) (j : Nat) (v : LocalVariable)
    (h : initializers vars = .ok ps) (hj : vars[j]? = some v) :
    match v.type with
    | .INT _ =>
        ps[j]? = some (declare v, some ("scanf(\"%d\", &" ++ v.name ++ ");"))
    | .UINT _ =>
        ps[j]? = some (declare v, some ("scanf(\"%u\", &" ++ v.name ++ ");"))
    | .CHAR_S _ =>
        ps[j]? = some (declare v, some ("scanf(\" %c\", &" ++ v.name ++ ");"))
    | _ => True := by
  obtain ⟨r, hr, hp⟩ := initsAux_spec vars vars 0 ps h j v hj
  cases htv : v.type with
  | INT sp =>
    simp only [read_and_assign, htv, Except.ok.injEq] at hr
    subst hr
    exact hp
  | UINT sp =>
    simp only [read_and_assign, htv, Except.ok.injEq] at hr
    subst hr
    exact hp
  | CHAR_S sp =>
    simp only [read_and_assign, htv, Except.ok.injEq] at hr
    subst hr
    exact hp
  | POINTER sp p => exact trivial
  | ELABORATED sp fs => exact trivial
  | OTHER sp k => exact trivial

/-- Witness for C5 at the unsigned entry (index 1) of a sequence holding one
primitive of each subkind. -/
theorem primitive_reads_witness :
    ([("int a;", some "scanf(\"%d\", &a);"),
      ("unsigned int u;", some "scanf(\"%u\", &u);"),
      ("char c;", some "scanf(\" %c\", &c);")] :
        List (String × Option String))[1]? =
      some (declare ⟨.UINT "unsigned int", "u", 0⟩,
        some ("scanf(\"%u\", &" ++ "u" ++ ");")) :=
  primitive_reads exPrims
    [("int a;", some "scanf(\"%d\", &a);"),
     ("unsigned int u;", some "scanf(\"%u\", &u);"),
     ("char c;", some "scanf(\" %c\", &c);")]
    1 ⟨.UINT "unsigned int", "u", 0⟩ rfl rfl

mutual

/-- Flattening succeeds on every tree free of unsupported kinds, and on a
tree containing one it raises the unhandled-kind exception naming the kind
of an unsupported node of the tree. -/
theorem local_vars_total : ∀ (t : CType) (nm : String),
    (hasUnsupported t = false → ∃ l, local_vars t nm = .ok l) ∧
    (hasUnsupported t = true →
      ∃ k, local_vars t nm = .error (.unhandledTypeKind k) ∧
        kindOccurs t k = true)
  | .INT sp, nm => by
    constructor
    · intro _; exact ⟨_, rfl⟩
    · intro h; simp [hasUnsupported] at h
  | .UINT sp, nm => by
    constructor
    · intro _; exact ⟨_, rfl⟩
    · intro h; simp [hasUnsupported] at h
  | .CHAR_S sp, nm => by
    constructor
    · intro _; exact ⟨_, rfl⟩
    · intro h; simp [hasUnsupported] at h
  | .POINTER sp p, nm => by
    have ih := local_vars_total p (nm ++ "_v")
    constructor
    · intro h
      simp only [hasUnsupported] at h
      obtain ⟨l, hl⟩ := ih.1 h
      exact ⟨l ++ [⟨.POINTER sp p, nm, 1⟩], by simp only [local_vars]; rw [hl]⟩
    · intro h
      simp only [hasUnsupported] at h
      obtain ⟨k, hk, hocc⟩ := ih.2 h
      exact ⟨k, by simp only [local_vars]; rw [hk],
        by simpa [kindOccurs] using hocc⟩
  | .ELABORATED sp fs, nm => by
    have ih := flattenFields_total fs
    constructor
    · intro h
      simp only [hasUnsupported] at h
      obtain ⟨l, hl⟩ := ih.1 h
      exact ⟨l ++ [⟨.ELABORATED sp fs, nm, fs.length⟩],
        by simp only [local_vars]; rw [hl]⟩
    · intro h
      simp only [hasUnsupported] at h
      obtain ⟨k, hk, hocc⟩ := ih.2 h
      exact ⟨k, by simp only [local_vars]; rw [hk],
        by simpa [kindOccurs] using hocc⟩
  | .OTHER sp k, nm => by
    constructor
    · intro h; simp [hasUnsupported] at h
    · intro _
      exact ⟨k, rfl, by simp [kindOccurs]⟩

/-- Companion of `local_vars_total` for field lists. -/
theorem flattenFields_total : ∀ (fs : FieldList),
    (fieldsHaveUnsupported fs = false → ∃ l, flattenFields fs = .ok l) ∧
    (fieldsHaveUnsupported fs = true →
      ∃ k, flattenFields fs = .error (.unhandledTypeKind k) ∧
        kindOccursFields fs k = true)
  | .nil => by
    constructor
    · intro _; exact ⟨[], rfl⟩
    · intro h; simp [fieldsHaveUnsupported] at h
  | .cons fn ft rest => by
    have iht := local_vars_total ft fn
    have ihr := flattenFields_total rest
    constructor
    · intro h
      simp only [fieldsHaveUnsupported, Bool.or_eq_false_iff] at h
      obtain ⟨l1, h1⟩ := iht.1 h.1
      obtain ⟨l2, h2⟩ := ihr.1 h.2
      exact ⟨l1 ++ l2, by simp only [flattenFields]; rw [h1, h2]⟩
    · intro h
      simp only [fieldsHaveUnsupported, Bool.or_eq_true] at h
      cases hft : hasUnsupported ft with
      | true =>
        obtain ⟨k, hk, hocc⟩ := iht.2 hft
        exact ⟨k, by simp only [flattenFields]; rw [hk],
          by simp [kindOccursFields, hocc]⟩
      | false =>
        have hrest : fieldsHaveUnsupported rest = true := by
          rcases h with h | h
          · rw [hft] at h; exact absurd h (by simp)
          · exact h
        obtain ⟨l1, h1⟩ := iht.1 hft
        obtain ⟨k, hk, hocc⟩ := ihr.2 hrest
        exact ⟨k, by simp only [flattenFields]; rw [h1, hk],
          by simp [kindOccursFields, hocc]⟩

end

/-- A parameter whose flattening raises makes the whole accumulation loop of
`main` raise. -/
theorem collectInits_error_mem :
    ∀ (params : List (String × CType)) (pn : String) (pt : CType),
      (pn, pt) ∈ params → (∃ e0, local_vars pt pn = .error e0) →
      ∃ e, collectInits params = .error e
  | [], pn, pt, hmem, _ => absurd hmem (by simp)
  | (qn, qt) :: rest, pn, pt, hmem, he => by
    cases hres : collectInits ((qn, qt) :: rest) with
    | error e => exact ⟨e, rfl⟩
    | ok res =>
      exfalso
      simp only [collectInits] at hres
      split at hres
      · exact absurd hres (by simp)
      · rename_i l h1
        split at hres
        · exact absurd hres (by simp)
        · rename_i ps h2
          split at hres
          · exact absurd hres (by simp)
          · rename_i r h3
            rcases List.mem_cons.mp hmem with heq | hm
            · obtain ⟨e0, he0⟩ := he
              have hpn : pn = qn := congrArg Prod.fst heq
              have hpt : pt = qt := congrArg Prod.snd heq
              rw [hpn, hpt, h1] at he0
              exact absurd he0 (by simp)
            · obtain ⟨e, he2⟩ := collectInits_error_mem rest pn pt hm he
              rw [he2] at h3
              exact absurd h3 (by simp)

/-- C6: a parameter type containing a kind outside the supported set makes
`local_vars` fail with the unhandled-kind exception naming an offending
kind, and the whole generation for the target aborts with an error — no
fragment is produced. -/
theorem unsupported_kind_aborts (t : CType) (nm fn : String)
    (params : List (String × CType)) (h : hasUnsupported t = true)
    (hmem : (nm, t) ∈ params) :
    (∃ k, local_vars t nm = .error (.unhandledTypeKind k) ∧
      kindOccurs t k = true) ∧
    ∃ e, gen_harness fn params = .error e := by
  have h1 := (local_vars_total t nm).2 h
  refine ⟨h1, ?_⟩
  obtain ⟨k, hk, _⟩ := h1
  obtain ⟨e, he⟩ := collectInits_error_mem params nm t hmem ⟨_, hk⟩
  exact ⟨e, by simp only [gen_harness]; rw [he]⟩

/-- Witness for C6 at a floating-point parameter `float f` of a target
`foo`. -/
theorem unsupported_kind_aborts_witness :
    (∃ k, local_vars exFloat "f" = .error (.unhandledTypeKind k) ∧
      kindOccurs exFloat k = true) ∧
    ∃ e, gen_harness "foo" [("f", exFloat)] = .error e :=
  unsupported_kind_aborts exFloat "f" "foo" [("f", exFloat)] rfl
    (List.mem_singleton.mpr rfl)

/-- C7: contrary to the claim, a sequence entry of an unsupported kind makes
`read_and_assign` fail with an `AttributeError` coming from the expression
`type.kind` (the Python builtin `type`), which identifies no type kind; the
error does not depend on the entry's kind name. -/
theorem unsupported_entry_fails_without_kind (vars : List LocalVariable)
    (i : Nat) (v : LocalVariable) (sp k : String)
    (ht : v.type = .OTHER sp k) :
    read_and_assign vars i v = .error .attributeError := by
  simp only [read_and_assign, ht]

/-- Witness for C7 at a single-entry sequence holding a floating-point
variable. -/
theorem unsupported_entry_fails_without_kind_witness :
    read_and_assign [exFloatVar] 0 exFloatVar = .error .attributeError :=
  unsupported_entry_fails_without_kind [exFloatVar] 0 exFloatVar "float"
    "TypeKind.FLOAT" rfl

/-- C9: a composite whose field list resolves to zero fields (including a
forward-declared struct, whose declaration yields no children) flattens to
exactly its own entry with `childCount 0`, with no preceding window and no
error. -/
theorem empty_composite_single_entry (sp nm : String) :
    local_vars (.ELABORATED sp .nil) nm =
      .ok [⟨.ELABORATED sp .nil, nm, 0⟩] := rfl

/-- `allSome` succeeds exactly on lists of `some`s, returning the unwrapped
elements. -/
theorem allSome_eq : ∀ (os : List (Option String)) (ds : List String),
    allSome os = some ds → os = ds.map some
  | [], ds, h => by
    simp only [allSome, Option.some.injEq] at h
    subst h; rfl
  | none :: os, ds, h => by simp [allSome] at h
  | some x :: os, ds, h => by
    simp only [allSome] at h
    cases h2 : allSome os with
    | none => rw [h2] at h; exact absurd h (by simp)
    | some r =>
      rw [h2] at h
      simp only [Option.some.injEq] at h
      subst h
      simp [allSome_eq os r h2]

/-- The accumulation loop of `main` concatenates the per-parameter
initializer chunks in declaration order. -/
theorem collectInits_chunks : ∀ (params : List (String × CType))
    (inits : List (String × Option String)),
    collectInits params = .ok inits →
    ∃ chunks, ParamInits params chunks ∧ inits = chunks.flatten
  | [], inits, h => by
    simp only [collectInits, Except.ok.injEq] at h
    subst h
    exact ⟨[], .nil, rfl⟩
  | (pn, pt) :: rest, inits, h => by
    simp only [collectInits] at h
    split at h
    · exact absurd h (by simp)
    · rename_i l h1
      split at h
      · exact absurd h (by simp)
      · rename_i ps h2
        split at h
        · exact absurd h (by simp)
        · rename_i r h3
          simp only [Except.ok.injEq] at h
          subst h
          obtain ⟨chunks, hch, hfl⟩ := collectInits_chunks rest r h3
          exact ⟨ps :: chunks, .cons h1 h2 hch, by simp [hfl]⟩

/-- C10: whenever generation succeeds, the emitted fragment consists, in
order, of all declaration statements, then all assignment/read statements,
then exactly one call of the target function with the parameter names in
declaration order; the initializer pairs are the concatenation of the
per-parameter chunks in parameter-declaration order, never interleaved. -/
theorem harness_layout (fn : String) (params : List (String × CType))
    (s : String) (h : gen_harness fn params = .ok s) :
    ∃ chunks ds, ParamInits params chunks ∧
      chunks.flatten.map Prod.snd = ds.map some ∧
      s = "\nint main() \x7b\n    // declare input variables\n    " ++
        String.intercalate "\n    " (chunks.flatten.map Prod.fst) ++
        "\n    // prepare input variables\n    " ++
        String.intercalate "\n    " ds ++
        "\n    // call into segment\n    " ++
        fn ++ "(" ++ String.intercalate ", " (params.map Prod.fst) ++
        ");\n\x7d\n" := by
  simp only [gen_harness] at h
  split at h
  · exact absurd h (by simp)
  · rename_i inits h1
    obtain ⟨chunks, hch, hfl⟩ := collectInits_chunks params inits h1
    subst hfl
    simp only [codegen] at h
    split at h
    · exact absurd h (by simp)
    · split at h
      · exact absurd h (by simp)
      · rename_i ds hds
        simp only [Except.ok.injEq] at h
        exact ⟨chunks, ds, hch, allSome_eq _ ds hds, h.symm⟩

/-- Witness for C10 for the target `foo(int *x)`: the fragment declares
`x_v` and `x`, reads `x_v`, wires `x = &x_v;` and calls `foo(x)`. -/
theorem harness_layout_witness :
    ∃ chunks ds, ParamInits [("x", exPtr)] chunks ∧
      chunks.flatten.map Prod.snd = ds.map some ∧
      ("\nint main() \x7b\n    // declare input variables\n    int x_v;\n    int * x;\n    // prepare input variables\n    scanf(\"%d\", &x_v);\n    x = &x_v;\n    // call into segment\n    foo(x);\n\x7d\n" : String) =
        "\nint main() \x7b\n    // declare input variables\n    " ++
        String.intercalate "\n    " (chunks.flatten.map Prod.fst) ++
        "\n    // prepare input variables\n    " ++
        String.intercalate "\n    " ds ++
        "\n    // call into segment\n    " ++
        "foo" ++ "(" ++
        String.intercalate ", " (([("x", exPtr)] :
          List (String × CType)).map Prod.fst) ++
        ");\n\x7d\n" :=
  harness_layout "foo" [("x", exPtr)]
    "\nint main() \x7b\n    // declare input variables\n    int x_v;\n    int * x;\n    // prepare input variables\n    scanf(\"%d\", &x_v);\n    x = &x_v;\n    // call into segment\n    foo(x);\n\x7d\n"
    rfl

/-- The scan of Python `max` returns an element whose key bounds every
element's key and the seed's key, and it is either the seed or the first
list element attaining its key, every earlier element having a strictly
smaller key. -/
theorem pyFold_spec (key : FuncDecl → Nat) :
    ∀ (xs : List FuncDecl) (cur : FuncDecl),
      (∀ n ∈ xs, key n ≤ key (pyFold key cur xs)) ∧
      key cur ≤ key (pyFold key cur xs) ∧
      (pyFold key cur xs = cur ∨
        ∃ k, ∃ hk : k < xs.length, pyFold key cur xs = xs.get ⟨k, hk⟩ ∧
          key cur < key (pyFold key cur xs) ∧
          ∀ j, ∀ hj : j < xs.length, j < k →
            key (xs.get ⟨j, hj⟩) < key (pyFold key cur xs))
  | [], cur => ⟨by simp, le_refl _, .inl rfl⟩
  | n :: xs, cur => by
    by_cases hkn : key cur < key n
    · have hcur : pyFold key cur (n :: xs) = pyFold key n xs := by
        simp only [pyFold, List.foldl_cons, if_pos hkn]
      have ih := pyFold_spec key xs n
      rw [hcur]
      refine ⟨?_, le_of_lt (lt_of_lt_of_le hkn ih.2.1), ?_⟩
      · intro m hm
        rcases List.mem_cons.mp hm with rfl | hm2
        · exact ih.2.1
        · exact ih.1 m hm2
      · rcases ih.2.2 with heq | ⟨k, hk, heqk, hlt, hall⟩
        · right
          refine ⟨0, by simp, heq, ?_, ?_⟩
          · rw [heq]; exact hkn
          · intro j hj hjk
            exact absurd hjk (by omega)
        · right
          refine ⟨k + 1, by simpa using Nat.succ_lt_succ hk, heqk,
            lt_trans hkn hlt, ?_⟩
          intro j hj hjk
          cases j with
          | zero => exact hlt
          | succ m => exact hall m (by simpa using hj) (by omega)
    · have hcur : pyFold key cur (n :: xs) = pyFold key cur xs := by
        simp only [pyFold, List.foldl_cons, if_neg hkn]
      have ih := pyFold_spec key xs cur
      rw [hcur]
      have hkn2 : key n ≤ key cur := le_of_not_lt hkn
      refine ⟨?_, ih.2.1, ?_⟩
      · intro m hm
        rcases List.mem_cons.mp hm with rfl | hm2
        · exact le_trans hkn2 ih.2.1
        · exact ih.1 m hm2
      · rcases ih.2.2 with heq | ⟨k, hk, heqk, hlt, hall⟩
        · exact .inl heq
        · right
          refine ⟨k + 1, by simpa using Nat.succ_lt_succ hk, heqk, hlt, ?_⟩
          intro j hj hjk
          cases j with
          | zero => exact lt_of_le_of_lt hkn2 hlt
          | succ m => exact hall m (by simpa using hj) (by omega)

/-- C8 (amended): the target selector returns the first-encountered
declaration whose comparison key — the source line for declarations located
in the primary file, `0` (Python `False`) otherwise — is maximal.  It thus
picks the greatest line number within the primary file; ties on the key are
resolved first-encountered-wins, not last-declared-wins; declarations
outside the primary file compare at key `0`, strictly below every in-file
candidate with a positive line; and an empty enumeration fails fatally with
the `ValueError` of Python `max`. -/
theorem selector_spec (primary : String) (l : List FuncDecl) :
    (∀ m n : FuncDecl, m.file ≠ primary → n.file = primary → 1 ≤ n.line →
      selKey primary m < selKey primary n) ∧
    match selectTarget primary l with
    | .error e => l = [] ∧ e = .valueError
    | .ok d => ∃ k, ∃ hk : k < l.length, d = l.get ⟨k, hk⟩ ∧
        (∀ j, ∀ hj : j < l.length,
          selKey primary (l.get ⟨j, hj⟩) ≤ selKey primary d) ∧
        ∀ j, ∀ hj : j < l.length, j < k →
          selKey primary (l.get ⟨j, hj⟩) < selKey primary d := by
  constructor
  · intro m n hm hn hline
    simp only [selKey, if_neg hm, if_pos hn]
    omega
  · cases l with
    | nil => exact ⟨rfl, rfl⟩
    | cons x xs =>
      show ∃ k, ∃ hk : k < (x :: xs).length,
        pyFold (selKey primary) x xs = (x :: xs).get ⟨k, hk⟩ ∧
        (∀ j, ∀ hj : j < (x :: xs).length,
          selKey primary ((x :: xs).get ⟨j, hj⟩) ≤
            selKey primary (pyFold (selKey primary) x xs)) ∧
        ∀ j, ∀ hj : j < (x :: xs).length, j < k →
          selKey primary ((x :: xs).get ⟨j, hj⟩) <
            selKey primary (pyFold (selKey primary) x xs)
      have hspec := pyFold_spec (selKey primary) xs x
      have hle : ∀ j, ∀ hj : j < (x :: xs).length,
          selKey primary ((x :: xs).get ⟨j, hj⟩) ≤
            selKey primary (pyFold (selKey primary) x xs) := by
        intro j hj
        cases j with
        | zero => exact hspec.2.1
        | succ m =>
          exact hspec.1 (xs.get ⟨m, by simpa using hj⟩)
            (List.get_mem _ _ _)
      rcases hspec.2.2 with heq | ⟨k, hk, heqk, hlt, hall⟩
      · refine ⟨0, by simp, heq, hle, ?_⟩
        intro j hj hjk
        exact absurd hjk (by omega)
      · refine ⟨k + 1, by simpa using Nat.succ_lt_succ hk, heqk, hle, ?_⟩
        intro j hj hjk
        cases j with
        | zero => exact hlt
        | succ m => exact hall m (by simpa using hj) (by omega)

/-- Counterexample to C8 as stated: two candidate declarations tie at line
10 in the primary file; the last-declared one is `g`, but Python `max`
keeps the first element attaining the maximal key, so the selector returns
`f` — ties are first-encountered-wins, not last-declared-wins. -/
theorem selector_tie_counterexample :
    selectTarget "main.c"
        [⟨"f", "main.c", 10⟩, ⟨"g", "main.c", 10⟩] =
      .ok ⟨"f", "main.c", 10⟩ ∧
    (⟨"f", "main.c", 10⟩ : FuncDecl) ≠ ⟨"g", "main.c", 10⟩ :=
  ⟨rfl, by decide⟩

/-- Witness for C8's amended statement on the empty enumeration: the
selector fails with the `ValueError` of Python `max`. -/
theorem selector_spec_witness :
    ([] : List FuncDecl) = [] ∧ PyErr.valueError = PyErr.valueError :=
  (selector_spec "main.c" []).2

/-- Scenario 4 of the spec: with candidates at lines 10 and 40 in the
primary file, the selector picks the line-40 declaration. -/
theorem selector_scenario4 :
    selectTarget "main.c"
        [⟨"f", "main.c", 10⟩, ⟨"g", "main.c", 40⟩] =
      .ok ⟨"g", "main.c", 40⟩ := rfl
